import Mathlib

/-!
Verification of `scripts/generate_summary.py` (mdBook SUMMARY.md generator).

The script is embedded shallowly:

* Python strings are Lean `String`s; all character-level operations are
  written out explicitly over `String.data` so they evaluate in the kernel.
* `re.search` is modelled by a small regex engine (`parsePattern` /
  `searchChars`) covering exactly the regex subset the script's exclusion
  patterns live in: literal characters, backslash escapes of punctuation,
  `.` (any character), and a final `$` end anchor.  Pattern strings outside
  this subset (for example an unclosed `[`) fail to parse, which models
  `re.error`.
* The filesystem is modelled by `FS`: a flag for the existence of the book
  root, an association list of (relative path, content) for readable files,
  and a list of relative paths for directories.
* Python exceptions that escape a function are modelled by `Except String`;
  `generate_summary` builds the whole document in memory and then performs
  a single write, exactly as the source does.
-/

/-- One matching unit of the modelled regex subset: a literal character, or
`.` (any character except newline). -/
inductive RItem where
  | lit (c : Char)
  | anyChar
deriving DecidableEq

/-- A compiled pattern of the modelled regex subset: a sequence of
single-character items, optionally anchored at the end of the string by a
final `$`. -/
structure RPattern where
  items : List RItem
  endAnchor : Bool
deriving DecidableEq

/-- Regex metacharacters outside the modelled subset; a bare occurrence makes
the pattern fail to compile in this model (`[` and `(` are genuinely invalid
for `re.compile`; the rest are conservatively rejected). -/
def rMeta : List Char := ['[', ']', '(', ')', '*', '+', '?', '{', '}', '|', '^', '$']

/-- Parse the character list of a pattern string.  Returns `none` for
patterns outside the modelled subset, which stands for `re.error`. -/
def parseItems : List Char → Option (List RItem × Bool)
  | [] => some ([], false)
  | ['$'] => some ([], true)
  | '\\' :: [] => none
  | '\\' :: c :: rest =>
    if c.isAlphanum then none
    else (parseItems rest).map (fun p => (RItem.lit c :: p.1, p.2))
  | '.' :: rest => (parseItems rest).map (fun p => (RItem.anyChar :: p.1, p.2))
  | c :: rest =>
    if c ∈ rMeta then none
    else (parseItems rest).map (fun p => (RItem.lit c :: p.1, p.2))

/-- Compile a pattern string (model of `re.compile`); `none` models
`re.error`. -/
def parsePattern (s : String) : Option RPattern :=
  (parseItems s.data).map (fun p => ⟨p.1, p.2⟩)

/-- Does one regex item match one character? (`.` does not match a
newline.) -/
def itemMatches : RItem → Char → Bool
  | .lit c, x => x = c
  | .anyChar, x => x ≠ '\n'

/-- Match a sequence of items against a prefix of the character list,
returning the rest on success. -/
def matchHere : List RItem → List Char → Option (List Char)
  | [], rest => some rest
  | _ :: _, [] => none
  | i :: is, c :: cs => if itemMatches i c then matchHere is cs else none

/-- Does the pattern match starting exactly at the head of `s`? -/
def attemptAt (p : RPattern) (s : List Char) : Bool :=
  match matchHere p.items s with
  | some rest => !p.endAnchor || rest.isEmpty
  | none => false

/-- Does the pattern match anywhere in `s`?  Model of `re.search` returning
a match object vs `None`. -/
def searchChars (p : RPattern) : List Char → Bool
  | [] => attemptAt p []
  | c :: cs => attemptAt p (c :: cs) || searchChars p cs

/-- Model of `re.search(pat, s)` in the modelled subset: `none` when the pattern does
not compile (a raised `re.error`), otherwise whether a match exists. -/
def reSearch (pat s : String) : Option Bool :=
  (parsePattern pat).map (fun p => searchChars p s.data)

/-- Model of `is_excluded(path, exclude_patterns)` from `generate_summary.py`: try
each pattern in order, return `True` on the first match; a pattern that does
not compile raises (`Except.error`), but only if it is reached. -/
def is_excluded (path : String) (patterns : List String) : Except String Bool :=
  match patterns with
  | [] => .ok false
  | p :: rest =>
    match reSearch p path with
    | none => .error ("re.error: invalid pattern " ++ p)
    | some true => .ok true
    | some false => is_excluded path rest

/-- The script's default exclusion pattern list. -/
def defaultExclude : List String := ["/\\.", "/_", "node_modules", "book$", "SUMMARY\\.md$"]

/-- Split a character list at newline characters (the line structure that
`re.MULTILINE` sees). -/
def splitNl : List Char → List (List Char)
  | [] => [[]]
  | c :: cs =>
    if c = '\n' then [] :: splitNl cs
    else
      match splitNl cs with
      | [] => [[c]]
      | l :: ls => (c :: l) :: ls

/-- The lines of a string, as strings. -/
def linesOf (s : String) : List String := (splitNl s.data).map String.mk

/-- Match one line against `^# (.+)$`: the line must start with `"# "` and
have a non-empty remainder, which is the captured group — taken verbatim,
with no trimming. -/
def headingOfLine (l : String) : Option String :=
  match l.data with
  | '#' :: ' ' :: rest => if rest.isEmpty then none else some (String.mk rest)
  | _ => none

/-- First line matching `^# (.+)$` (model of `re.search` with
`re.MULTILINE` over the whole content). -/
def firstHeading : List String → Option String
  | [] => none
  | l :: rest =>
    match headingOfLine l with
    | some t => some t
    | none => firstHeading rest

/-- Model of `os.path.splitext(name)[0]` for a bare file name: drop the extension at
the last dot, unless every character before that dot is itself a dot. -/
def splitextStem (name : String) : String :=
  let cs := name.data
  if cs.contains '.' then
    let i := cs.length - 1 - (cs.reverse.indexOf '.')
    if (cs.take i).any (fun c => c ≠ '.') then String.mk (cs.take i) else name
  else name

/-- Model of `str.replace('-', ' ')`: replace every hyphen by a space. -/
def replaceDash (s : String) : String :=
  String.mk (s.data.map (fun c => if c = '-' then ' ' else c))

/-- One step of Python `str.title()`: an alphabetic character is uppercased
when the previous character was not alphabetic, lowercased otherwise. -/
def pyTitleGo : Bool → List Char → List Char
  | _, [] => []
  | prevAlpha, c :: cs =>
    if c.isAlpha then
      (if prevAlpha then c.toLower else c.toUpper) :: pyTitleGo true cs
    else c :: pyTitleGo false cs

/-- Python `str.title()` (for the ASCII names this script handles). -/
def pyTitle (s : String) : String := String.mk (pyTitleGo false s.data)

/-- The fallback title of `extract_title`: file name without extension,
hyphens replaced by spaces, then `str.title()`.  (The source does NOT
replace underscores.) -/
def derivedTitle (fileName : String) : String :=
  pyTitle (replaceDash (splitextStem fileName))

/-- Model of `extract_title(file_path)`: `fileName` is the base name of the path and
`content` is the file's text, `none` when the file cannot be read or
decoded (the `except` branch).  Returns the first `^# (.+)$` group, else
the derived fallback title. -/
def extract_title (fileName : String) (content : Option String) : String :=
  match content with
  | some c =>
    match firstHeading (linesOf c) with
    | some t => t
    | none => derivedTitle fileName
  | none => derivedTitle fileName

/-- A path relative to the book root, as a list of segments. -/
abbrev RelPath := List String

/-- The modelled filesystem under (and including) the book root:
`rootExists` is whether the root directory exists; `files` maps relative
paths to readable contents; `dirs` lists relative paths of directories
(directories are also implied by deeper entries). -/
structure FS where
  rootExists : Bool
  files : List (RelPath × String)
  dirs : List RelPath
deriving DecidableEq

/-- First-match lookup in the file list. -/
def lookupFile : List (RelPath × String) → RelPath → Option String
  | [], _ => none
  | f :: rest, p => if f.1 = p then some f.2 else lookupFile rest p

/-- Model of `Path.exists()` for a file under the root. -/
def FS.fileExists (fs : FS) (p : RelPath) : Bool :=
  fs.rootExists && (lookupFile fs.files p).isSome

/-- Is `p` a strict prefix of `q`? -/
def properPrefixOf (p q : RelPath) : Bool :=
  p.isPrefixOf q && decide (p.length < q.length)

/-- Model of `Path.is_dir()` (together with existence) for a directory under the
root: listed in `dirs`, or implied by a deeper directory or file. -/
def FS.isDir (fs : FS) (p : RelPath) : Bool :=
  fs.rootExists &&
    (fs.dirs.any (fun d => d = p || properPrefixOf p d) ||
     fs.files.any (fun f => properPrefixOf p f.1))

/-- If `p` is a strict prefix of `q`, the next segment of `q` after `p`. -/
def childName (p q : RelPath) : Option String :=
  if properPrefixOf p q then (q.drop p.length).head? else none

/-- If `q` is directly inside `p`, its name. -/
def directChild (p q : RelPath) : Option String :=
  if p.isPrefixOf q && decide (q.length = p.length + 1) then (q.drop p.length).head?
  else none

/-- Remove duplicates keeping first occurrences. -/
def dedupGo (seen : List String) : List String → List String
  | [] => []
  | x :: xs => if seen.contains x then dedupGo seen xs else x :: dedupGo (x :: seen) xs

/-- The names of the immediate subdirectories of `p` (`iterdir()` filtered
by `is_dir()`). -/
def subdirNames (fs : FS) (p : RelPath) : List String :=
  (dedupGo [] (fs.dirs.filterMap (childName p) ++ fs.files.filterMap (fun f => childName p f.1))).filter
    (fun n => fs.isDir (p ++ [n]))

/-- Does the name match the glob pattern `*.md`? -/
def isMdName (n : String) : Bool := ['.', 'm', 'd'].isSuffixOf n.data

/-- One step of `dir.glob('*.md')` over the file list: keep a file when it
is directly inside `p` and its name ends in `.md`. -/
def mdGlobStep (p : RelPath) (f : RelPath × String) : Option (String × String) :=
  match directChild p f.1 with
  | some n => if isMdName n then some (n, f.2) else none
  | none => none

/-- Model of `dir.glob('*.md')`: the (name, content) pairs of files directly inside
`p` whose name ends in `.md`; empty when the root does not exist. -/
def globMdFiles (fs : FS) (p : RelPath) : List (String × String) :=
  if fs.rootExists then fs.files.filterMap (mdGlobStep p) else []

/-- Model of `str(book_root / p)`: the absolute path string handed to
`is_excluded`. -/
def pathStr (rootStr : String) (p : RelPath) : String :=
  rootStr ++ String.join (p.map (fun s => "/" ++ s))

/-- Code-point comparison of character lists (Python string `<=`). -/
def charsLe : List Char → List Char → Bool
  | [], _ => true
  | _ :: _, [] => false
  | a :: as, b :: bs => if a.toNat = b.toNat then charsLe as bs else a.toNat < b.toNat

/-- Python string comparison used by `sorted`. -/
def strLe (a b : String) : Bool := charsLe a.data b.data

/-- Insert into a sorted list (stable: goes before later equal keys). -/
def insertLe (le : α → α → Bool) (x : α) : List α → List α
  | [] => [x]
  | y :: ys => if le x y then x :: y :: ys else y :: insertLe le x ys

/-- Insertion sort, modelling Python `sorted`. -/
def sortLe (le : α → α → Bool) : List α → List α
  | [] => []
  | x :: xs => insertLe le x (sortLe le xs)

/-- Model of `sorted` on names. -/
def sortNames : List String → List String := sortLe strLe

/-- Model of `sorted` on (name, content) pairs, by name (the paths share the
directory, so comparing full paths is comparing names). -/
def sortPairs : List (String × String) → List (String × String) :=
  sortLe (fun a b => strLe a.1 b.1)

/-- Keep the names whose path string is not excluded; an `is_excluded`
exception propagates. -/
def keepNotExcluded (patterns : List String) (mkStr : String → String) :
    List String → Except String (List String)
  | [] => .ok []
  | n :: rest =>
    match is_excluded (mkStr n) patterns with
    | .error e => .error e
    | .ok b =>
      match keepNotExcluded patterns mkStr rest with
      | .error e => .error e
      | .ok r => .ok (if b then r else n :: r)

/-- Keep the (name, content) pairs whose path string is not excluded; an
`is_excluded` exception propagates. -/
def keepPairsNotExcluded (patterns : List String) (mkStr : String → String) :
    List (String × String) → Except String (List (String × String))
  | [] => .ok []
  | f :: rest =>
    match is_excluded (mkStr f.1) patterns with
    | .error e => .error e
    | .ok b =>
      match keepPairsNotExcluded patterns mkStr rest with
      | .error e => .error e
      | .ok r => .ok (if b then r else f :: r)

/-- The name filter of the chapter section scan: `f.name != 'README.md'`. -/
def notReadmeName (f : String × String) : Bool := f.1 ≠ "README.md"

/-- The name filter of the root fallback scan:
`f.name != 'README.md' and f.name != 'SUMMARY.md'`. -/
def notReadmeSummaryName (f : String × String) : Bool :=
  f.1 ≠ "README.md" && f.1 ≠ "SUMMARY.md"

/-- One line of the generated document: its nesting depth (0 = chapter,
1 = section), display title, and link target (`none` for the synthetic
unlinked chapter heading). -/
structure Entry where
  depth : Nat
  title : String
  target : Option String
deriving DecidableEq

/-- Render one entry exactly as the script's f-strings do. -/
def renderEntry (e : Entry) : String :=
  match e.target with
  | some p => (if e.depth = 0 then "* [" else "  * [") ++ e.title ++ "](" ++ p ++ ")\n"
  | none => "* [" ++ e.title ++ "]\n"

/-- Model of `sorted([d for d in chapters_dir.iterdir() if d.is_dir() and not
is_excluded(d, exclude)])`: the chapter directory names, filtered then
sorted. -/
def chapterDirsOf (fs : FS) (rootStr : String) (exclude : List String) :
    Except String (List String) :=
  match keepNotExcluded exclude (fun n => pathStr rootStr ["chapters", n])
      (subdirNames fs ["chapters"]) with
  | .error e => .error e
  | .ok kept => .ok (sortNames kept)

/-- The entries contributed by one chapter directory `d` (the body of the
`for chapter_dir in chapter_dirs` loop). -/
def sectionEntry (d : String) (f : String × String) : Entry :=
  ⟨1, extract_title f.1 (some f.2), some ("chapters/" ++ d ++ "/" ++ f.1)⟩

def chapterEntries (fs : FS) (rootStr : String) (exclude : List String) (d : String) :
    Except String (List Entry) :=
  match lookupFile fs.files ["chapters", d, "README.md"] with
  | some rc =>
    match keepPairsNotExcluded exclude (fun n => pathStr rootStr ["chapters", d, n])
        ((globMdFiles fs ["chapters", d]).filter notReadmeName) with
    | .error e => .error e
    | .ok kept =>
      .ok (⟨0, extract_title "README.md" (some rc), some ("chapters/" ++ d ++ "/README.md")⟩ ::
        (sortPairs kept).map (sectionEntry d))
  | none =>
    match keepPairsNotExcluded exclude (fun n => pathStr rootStr ["chapters", d, n])
        (globMdFiles fs ["chapters", d]) with
    | .error e => .error e
    | .ok kept =>
      match sortPairs kept with
      | [] => .ok []
      | mds => .ok (⟨0, pyTitle (replaceDash d), none⟩ :: mds.map (sectionEntry d))

/-- Sequential concatenation of the per-chapter entries; an exception in
any chapter aborts the whole loop. -/
def concatChapterEntries (f : String → Except String (List Entry)) :
    List String → Except String (List Entry)
  | [] => .ok []
  | d :: ds =>
    match f d with
    | .error e => .error e
    | .ok es =>
      match concatChapterEntries f ds with
      | .error e => .error e
      | .ok r => .ok (es ++ r)

/-- The fallback branch when no `chapters/` directory exists: all root
`*.md` files except those named `README.md` or `SUMMARY.md`, non-excluded,
sorted, each a depth-0 entry. -/
def rootFallbackEntries (fs : FS) (rootStr : String) (exclude : List String) :
    Except String (List Entry) :=
  match keepPairsNotExcluded exclude (fun n => pathStr rootStr [n])
      ((globMdFiles fs []).filter notReadmeSummaryName) with
  | .error e => .error e
  | .ok kept => .ok ((sortPairs kept).map (fun f => ⟨0, extract_title f.1 (some f.2), some f.1⟩))

/-- The ordered entry list of the generated document: root `README.md`
introduction (no exclusion check), then either the chapter walk or the
root fallback. -/
def introEntries (fs : FS) : List Entry :=
  match (if fs.rootExists then lookupFile fs.files ["README.md"] else none) with
  | some c => [⟨0, extract_title "README.md" (some c), some "README.md"⟩]
  | none => []

def buildEntries (fs : FS) (rootStr : String) (exclude : List String) :
    Except String (List Entry) :=
  if fs.isDir ["chapters"] then
    match chapterDirsOf fs rootStr exclude with
    | .error e => .error e
    | .ok ds =>
      match concatChapterEntries (chapterEntries fs rootStr exclude) ds with
      | .error e => .error e
      | .ok rest => .ok (introEntries fs ++ rest)
  else
    match rootFallbackEntries fs rootStr exclude with
    | .error e => .error e
    | .ok rest => .ok (introEntries fs ++ rest)

/-- The full in-memory `content` list: the header then one rendered line
per entry. -/
def buildContent (fs : FS) (rootStr : String) (exclude : List String) :
    Except String (List String) :=
  match buildEntries fs rootStr exclude with
  | .error e => .error e
  | .ok es => .ok ("# Summary\n\n" :: es.map renderEntry)

/-- Replace the content of `out` in the file list, or append it. -/
def setFileList : List (RelPath × String) → RelPath → String → List (RelPath × String)
  | [], out, v => [(out, v)]
  | f :: rest, out, v => if f.1 = out then (out, v) :: rest else f :: setFileList rest out v

/-- Can `open(out, 'w')` succeed: the parent directory of the output path
must exist. -/
def parentDirOk (fs : FS) (out : RelPath) : Bool :=
  match out.dropLast with
  | [] => fs.rootExists
  | parent => fs.isDir parent

/-- The single write at the end of the run: errors (leaving the filesystem
untouched) when the parent directory is missing, otherwise replaces the
output file with the full document. -/
def writeOutput (fs : FS) (out : RelPath) (content : List String) : Except String FS :=
  if parentDirOk fs out then
    .ok { fs with files := setFileList fs.files out (String.join content) }
  else .error ("FileNotFoundError: No such file or directory: " ++ pathStr "" out)

/-- Model of `generate_summary(book_root, output_file, exclude)`: build the whole
document in memory, then write it once; returns the new filesystem and the
content list, or the uncaught exception. -/
def generate_summary (fs : FS) (rootStr : String) (out : RelPath) (exclude : List String) :
    Except String (FS × List String) :=
  match buildContent fs rootStr exclude with
  | .error e => .error e
  | .ok content =>
    match writeOutput fs out content with
    | .error e => .error e
    | .ok fs2 => .ok (fs2, content)

/-- A book with a single chapter directory `03-extra-topic` holding one
markdown file and no `README.md`. -/
def noReadmeFs : FS :=
  ⟨true,
   [(["chapters", "03-extra-topic", "notes.md"], "# My Notes\n")],
   []⟩

/-- Modelled from the spec: Python `str.strip()` ("whitespace-trimmed"),
used only to state what the spec asks of the extracted heading text. -/
def pyStrip (s : String) : String :=
  String.mk (((s.data.dropWhile Char.isWhitespace).reverse.dropWhile Char.isWhitespace).reverse)

/-- A line of the document body: a top-level or an indented list item. -/
def isEntryLine (l : String) : Prop :=
  (∃ s, l.data = '*' :: ' ' :: '[' :: s) ∨ (∃ s, l.data = ' ' :: ' ' :: '*' :: ' ' :: '[' :: s)

/-- The filesystem after (re)writing the root `SUMMARY.md`. -/
def setSummary (fs : FS) (v : String) : FS :=
  ⟨fs.rootExists, setFileList fs.files ["SUMMARY.md"] v, fs.dirs⟩

/-- A book whose root `README.md` path is matched by the exclusion pattern
`"README"`. -/
def fsC2 : FS := ⟨true, [(["README.md"], "# Welcome\n")], []⟩

/-- A book with one chapter directory `x` and nothing else. -/
def fsC10 : FS := ⟨true, [], [["chapters"], ["chapters", "x"]]⟩

/-- Three chapter directories with zero-padded numeric prefixes, listed in
scrambled order in the model filesystem. -/
def fsC7 : FS :=
  ⟨true,
   [(["chapters", "10-appendix", "README.md"], "# Appendix\n"),
    (["chapters", "01-intro", "README.md"], "# Intro\n"),
    (["chapters", "02-setup", "README.md"], "# Setup\n")],
   []⟩

/-- The tree after the first run with output `TOC.md`. -/
def fsC3run1 : FS :=
  ⟨true, [(["a.md"], ""), (["TOC.md"], "# Summary\n\n* [A](a.md)\n")], []⟩

/-- The tree after the second run with output `TOC.md`. -/
def fsC3run2 : FS :=
  ⟨true, [(["a.md"], ""), (["TOC.md"], "# Summary\n\n* [Summary](TOC.md)\n* [A](a.md)\n")], []⟩

/-- The tree fsC6 after one run with output `TOC.md`. -/
def fsC6run : FS :=
  ⟨true, [(["TOC.md"], "# Summary\n\n* [Toc](TOC.md)\n* [A](a.md)\n"), (["a.md"], "")], []⟩

/-- A chapterless book that does have a root `README.md`, plus one listed
file and a stale `SUMMARY.md`. -/
def fsC6w : FS :=
  ⟨true, [(["README.md"], "# Home\n"), (["b.md"], ""), (["SUMMARY.md"], "old")], []⟩

/-- A chapterless book with one markdown file, run with a custom output
file name `TOC.md`. -/
def fsC3 : FS := ⟨true, [(["a.md"], "")], []⟩

/-- A chapterless book holding a previously generated `TOC.md` and a
regular `a.md`, run with output configured to `TOC.md`. -/
def fsC6 : FS := ⟨true, [(["TOC.md"], "x"), (["a.md"], "")], []⟩

/-! ### Toolbox lemmas -/

theorem charsLe_total : ∀ a b : List Char, charsLe a b = true ∨ charsLe b a = true
  | [], _ => Or.inl rfl
  | _ :: _, [] => Or.inr rfl
  | a :: as, b :: bs => by
    by_cases h : a.toNat = b.toNat
    · have ih := charsLe_total as bs
      simp only [charsLe, h, if_pos rfl]
      simpa [charsLe, h] using ih
    · rcases Nat.lt_or_ge a.toNat b.toNat with hlt | hge
      · left; simp [charsLe, h, hlt]
      · right
        have hne : b.toNat ≠ a.toNat := fun he => h he.symm
        have hlt : b.toNat < a.toNat := Nat.lt_of_le_of_ne hge hne
        simp [charsLe, hne, hlt]

theorem charsLe_trans : ∀ a b c : List Char,
    charsLe a b = true → charsLe b c = true → charsLe a c = true
  | [], _, _, _, _ => rfl
  | _ :: _, [], _, hab, _ => by simp [charsLe] at hab
  | _ :: _, _ :: _, [], _, hbc => by simp [charsLe] at hbc
  | a :: as, b :: bs, c :: cs, hab, hbc => by
    by_cases h1 : a.toNat = b.toNat <;> by_cases h2 : b.toNat = c.toNat
    · simp only [charsLe, if_pos h1] at hab
      simp only [charsLe, if_pos h2] at hbc
      simp only [charsLe, if_pos (h1.trans h2)]
      exact charsLe_trans as bs cs hab hbc
    · simp only [charsLe, if_neg h2, decide_eq_true_eq] at hbc
      have hac : a.toNat < c.toNat := h1 ▸ hbc
      have hne : a.toNat ≠ c.toNat := Nat.ne_of_lt hac
      simp [charsLe, hne, hac]
    · simp only [charsLe, if_neg h1, decide_eq_true_eq] at hab
      have hac : a.toNat < c.toNat := h2 ▸ hab
      have hne : a.toNat ≠ c.toNat := Nat.ne_of_lt hac
      simp [charsLe, hne, hac]
    · simp only [charsLe, if_neg h1, decide_eq_true_eq] at hab
      simp only [charsLe, if_neg h2, decide_eq_true_eq] at hbc
      have hac : a.toNat < c.toNat := Nat.lt_trans hab hbc
      have hne : a.toNat ≠ c.toNat := Nat.ne_of_lt hac
      simp [charsLe, hne, hac]

theorem strLe_total (a b : String) : strLe a b = true ∨ strLe b a = true :=
  charsLe_total a.data b.data

theorem strLe_trans (a b c : String) (h1 : strLe a b = true) (h2 : strLe b c = true) :
    strLe a c = true :=
  charsLe_trans a.data b.data c.data h1 h2

theorem mem_insertLe {α : Type} (le : α → α → Bool) (x y : α) (l : List α) :
    y ∈ insertLe le x l ↔ y = x ∨ y ∈ l := by
  induction l with
  | nil => simp [insertLe]
  | cons z zs ih =>
    by_cases h : le x z = true
    · simp only [insertLe, if_pos h, List.mem_cons]
    · simp only [insertLe, if_neg h, List.mem_cons, ih]
      tauto

theorem mem_sortLe {α : Type} (le : α → α → Bool) (y : α) (l : List α) :
    y ∈ sortLe le l ↔ y ∈ l := by
  induction l with
  | nil => exact Iff.rfl
  | cons x xs ih => simp only [sortLe, mem_insertLe, List.mem_cons, ih]

theorem pairwise_insertLe {α : Type} (le : α → α → Bool)
    (htot : ∀ a b, le a b = true ∨ le b a = true)
    (htr : ∀ a b c, le a b = true → le b c = true → le a c = true)
    (x : α) (l : List α) (h : l.Pairwise (fun a b => le a b = true)) :
    (insertLe le x l).Pairwise (fun a b => le a b = true) := by
  induction l with
  | nil => simp [insertLe]
  | cons y ys ih =>
    rcases List.pairwise_cons.mp h with ⟨hy, hys⟩
    by_cases hxy : le x y = true
    · simp only [insertLe, if_pos hxy]
      refine List.pairwise_cons.mpr ⟨?_, h⟩
      intro z hz
      rcases List.mem_cons.mp hz with rfl | hz'
      · exact hxy
      · exact htr x y z hxy (hy z hz')
    · simp only [insertLe, if_neg hxy]
      refine List.pairwise_cons.mpr ⟨?_, ih hys⟩
      intro z hz
      rcases (mem_insertLe le x z ys).mp hz with hzx | hz'
      · subst hzx
        rcases htot z y with h' | h'
        · exact absurd h' hxy
        · exact h'
      · exact hy z hz'

theorem pairwise_sortLe {α : Type} (le : α → α → Bool)
    (htot : ∀ a b, le a b = true ∨ le b a = true)
    (htr : ∀ a b c, le a b = true → le b c = true → le a c = true) :
    ∀ l : List α, (sortLe le l).Pairwise (fun a b => le a b = true)
  | [] => List.Pairwise.nil
  | x :: xs => pairwise_insertLe le htot htr x (sortLe le xs) (pairwise_sortLe le htot htr xs)

theorem keepNotExcluded_mem (patterns : List String) (mkStr : String → String) :
    ∀ (l r : List String), keepNotExcluded patterns mkStr l = .ok r →
      ∀ n, n ∈ r ↔ n ∈ l ∧ is_excluded (mkStr n) patterns = .ok false
  | [], r, h, n => by
    simp only [keepNotExcluded, Except.ok.injEq] at h
    subst h; simp
  | m :: rest, r, h, n => by
    simp only [keepNotExcluded] at h
    cases he : is_excluded (mkStr m) patterns with
    | error e => rw [he] at h; exact absurd h (by simp)
    | ok b =>
      rw [he] at h
      cases hr : keepNotExcluded patterns mkStr rest with
      | error e => rw [hr] at h; exact absurd h (by simp)
      | ok r' =>
        rw [hr] at h
        simp only [Except.ok.injEq] at h
        subst h
        have ih := keepNotExcluded_mem patterns mkStr rest r' hr n
        cases b with
        | true =>
          simp only [if_pos rfl]
          constructor
          · intro hn
            rcases ih.mp hn with ⟨hm, hex⟩
            exact ⟨List.mem_cons_of_mem _ hm, hex⟩
          · rintro ⟨hm, hex⟩
            rcases List.mem_cons.mp hm with rfl | hm'
            · rw [he] at hex; exact absurd hex (by simp)
            · exact ih.mpr ⟨hm', hex⟩
        | false =>
          simp only [Bool.false_eq_true, if_neg (fun h => h)]
          constructor
          · intro hn
            rcases List.mem_cons.mp hn with rfl | hn'
            · exact ⟨List.mem_cons_self _ _, he⟩
            · rcases ih.mp hn' with ⟨hm, hex⟩
              exact ⟨List.mem_cons_of_mem _ hm, hex⟩
          · rintro ⟨hm, hex⟩
            rcases List.mem_cons.mp hm with rfl | hm'
            · exact List.mem_cons_self _ _
            · exact List.mem_cons_of_mem _ (ih.mpr ⟨hm', hex⟩)

theorem keepPairsNotExcluded_mem (patterns : List String) (mkStr : String → String) :
    ∀ (l r : List (String × String)), keepPairsNotExcluded patterns mkStr l = .ok r →
      ∀ f, f ∈ r ↔ f ∈ l ∧ is_excluded (mkStr f.1) patterns = .ok false
  | [], r, h, f => by
    simp only [keepPairsNotExcluded, Except.ok.injEq] at h
    subst h; simp
  | g :: rest, r, h, f => by
    simp only [keepPairsNotExcluded] at h
    cases he : is_excluded (mkStr g.1) patterns with
    | error e => rw [he] at h; exact absurd h (by simp)
    | ok b =>
      rw [he] at h
      cases hr : keepPairsNotExcluded patterns mkStr rest with
      | error e => rw [hr] at h; exact absurd h (by simp)
      | ok r' =>
        rw [hr] at h
        simp only [Except.ok.injEq] at h
        subst h
        have ih := keepPairsNotExcluded_mem patterns mkStr rest r' hr f
        cases b with
        | true =>
          simp only [if_pos rfl]
          constructor
          · intro hn
            rcases ih.mp hn with ⟨hm, hex⟩
            exact ⟨List.mem_cons_of_mem _ hm, hex⟩
          · rintro ⟨hm, hex⟩
            rcases List.mem_cons.mp hm with rfl | hm'
            · rw [he] at hex; exact absurd hex (by simp)
            · exact ih.mpr ⟨hm', hex⟩
        | false =>
          simp only [Bool.false_eq_true, if_neg (fun h => h)]
          constructor
          · intro hn
            rcases List.mem_cons.mp hn with rfl | hn'
            · exact ⟨List.mem_cons_self _ _, he⟩
            · rcases ih.mp hn' with ⟨hm, hex⟩
              exact ⟨List.mem_cons_of_mem _ hm, hex⟩
          · rintro ⟨hm, hex⟩
            rcases List.mem_cons.mp hm with rfl | hm'
            · exact List.mem_cons_self _ _
            · exact List.mem_cons_of_mem _ (ih.mpr ⟨hm', hex⟩)

theorem directChild_eq_some (p q : RelPath) (n : String) :
    directChild p q = some n ↔ q = p ++ [n] := by
  constructor
  · intro h
    simp only [directChild] at h
    split at h
    · rename_i hc
      rw [Bool.and_eq_true, List.isPrefixOf_iff_prefix, decide_eq_true_eq] at hc
      obtain ⟨⟨t, ht⟩, hlen⟩ := hc
      subst ht
      rw [List.drop_left] at h
      have hl : t.length = 1 := by
        have := List.length_append p t
        omega
      cases t with
      | nil => simp at hl
      | cons a t' =>
        cases t' with
        | nil => simp only [List.head?] at h; injection h with h; subst h; rfl
        | cons b t'' => simp at hl
    · exact absurd h (by simp)
  · rintro rfl
    simp only [directChild, Bool.and_eq_true, List.isPrefixOf_iff_prefix, decide_eq_true_eq]
    rw [if_pos ⟨List.prefix_append p [n], by simp⟩, List.drop_left]
    rfl

theorem mem_globMdFiles (fs : FS) (p : RelPath) (n c : String) :
    (n, c) ∈ globMdFiles fs p ↔
      fs.rootExists = true ∧ (p ++ [n], c) ∈ fs.files ∧ isMdName n = true := by
  cases hr : fs.rootExists with
  | false => simp [globMdFiles, hr]
  | true =>
    simp only [globMdFiles, hr, if_true, List.mem_filterMap, true_and]
    constructor
    · rintro ⟨⟨q, w⟩, hf, hsome⟩
      simp only [mdGlobStep] at hsome
      cases hd : directChild p q with
      | none => rw [hd] at hsome; cases hsome
      | some m =>
        rw [hd] at hsome
        by_cases hmd : isMdName m = true
        · simp only [hmd, if_true, Option.some.injEq, Prod.mk.injEq] at hsome
          obtain ⟨h1, h2⟩ := hsome
          subst h1
          subst h2
          have hq := (directChild_eq_some p q _).mp hd
          subst hq
          exact ⟨hf, hmd⟩
        · simp [hmd] at hsome
    · rintro ⟨hmem, hmd⟩
      refine ⟨(p ++ [n], c), hmem, ?_⟩
      simp only [mdGlobStep, (directChild_eq_some p (p ++ [n]) n).mpr rfl, hmd, if_true]

theorem lookup_setFileList_self (l : List (RelPath × String)) (k : RelPath) (v : String) :
    lookupFile (setFileList l k v) k = some v := by
  induction l with
  | nil => simp [setFileList, lookupFile]
  | cons f rest ih =>
    by_cases h : f.1 = k
    · simp [setFileList, h, lookupFile]
    · simp only [setFileList, if_neg h, lookupFile, ih]

theorem lookup_setFileList_ne (l : List (RelPath × String)) (k k' : RelPath) (v : String)
    (h : k' ≠ k) : lookupFile (setFileList l k v) k' = lookupFile l k' := by
  have hkk : ¬(k = k') := fun he => h he.symm
  induction l with
  | nil =>
    simp only [setFileList, lookupFile]
    rw [if_neg hkk]
  | cons f rest ih =>
    by_cases hf : f.1 = k
    · have h2 : ¬(f.1 = k') := by rw [hf]; exact hkk
      simp only [setFileList, if_pos hf, lookupFile]
      rw [if_neg hkk, if_neg h2]
    · simp only [setFileList, if_neg hf, lookupFile, ih]

theorem setFileList_setFileList (l : List (RelPath × String)) (k : RelPath) (v w : String) :
    setFileList (setFileList l k v) k w = setFileList l k w := by
  induction l with
  | nil => simp [setFileList]
  | cons f rest ih =>
    by_cases hf : f.1 = k
    · simp [setFileList, hf]
    · simp only [setFileList, if_neg hf, ih]

theorem concatChapterEntries_mem (f : String → Except String (List Entry)) :
    ∀ (l : List String) (r : List Entry), concatChapterEntries f l = .ok r →
      ∀ e ∈ r, ∃ d ∈ l, ∃ rd, f d = .ok rd ∧ e ∈ rd
  | [], r, h, e, he => by
    simp only [concatChapterEntries, Except.ok.injEq] at h
    subst h; exact absurd he (by simp)
  | d :: ds, r, h, e, he => by
    simp only [concatChapterEntries] at h
    cases hd : f d with
    | error er => rw [hd] at h; exact absurd h (by simp)
    | ok es =>
      rw [hd] at h
      cases hds : concatChapterEntries f ds with
      | error er => rw [hds] at h; exact absurd h (by simp)
      | ok r' =>
        rw [hds] at h
        simp only [Except.ok.injEq] at h
        subst h
        rcases List.mem_append.mp he with h1 | h2
        · exact ⟨d, List.mem_cons_self _ _, es, hd, h1⟩
        · obtain ⟨d', hd', rd, hrd, herd⟩ := concatChapterEntries_mem f ds r' hds e h2
          exact ⟨d', List.mem_cons_of_mem _ hd', rd, hrd, herd⟩

theorem introEntries_target (fs : FS) (e : Entry) (he : e ∈ introEntries fs) :
    e.target = some "README.md" := by
  simp only [introEntries] at he
  cases h : (if fs.rootExists then lookupFile fs.files ["README.md"] else none) with
  | none => rw [h] at he; exact absurd he (by simp)
  | some c =>
    rw [h] at he
    rcases List.mem_cons.mp he with rfl | h2
    · rfl
    · exact absurd h2 (by simp)

theorem chapterEntries_target (fs : FS) (rootStr : String) (exclude : List String) (d : String)
    (es : List Entry) (h : chapterEntries fs rootStr exclude d = .ok es) :
    ∀ e ∈ es, ∀ t, e.target = some t →
      t = "chapters/" ++ d ++ "/README.md" ∨
      ∃ n, t = "chapters/" ++ d ++ "/" ++ n ∧
        is_excluded (pathStr rootStr ["chapters", d, n]) exclude = .ok false := by
  intro e he t ht
  simp only [chapterEntries] at h
  split at h
  · split at h
    · cases h
    · rename_i kept hk
      injection h with h
      subst h
      rcases List.mem_cons.mp he with rfl | hmem
      · left
        simpa using ht.symm
      · rcases List.mem_map.mp hmem with ⟨f, hf, rfl⟩
        right
        have hf' : f ∈ kept := (mem_sortLe _ f kept).mp hf
        have hex := (keepPairsNotExcluded_mem _ _ _ kept hk f).mp hf'
        refine ⟨f.1, ?_, hex.2⟩
        simpa [sectionEntry] using ht.symm
  · split at h
    · cases h
    · rename_i kept hk
      split at h
      · injection h with h
        subst h
        exact absurd he (by simp)
      · rename_i hs
        injection h with h
        subst h
        rcases List.mem_cons.mp he with rfl | hmem
        · exact absurd ht (by simp)
        · rcases List.mem_map.mp hmem with ⟨f, hf, rfl⟩
          right
          have hf' : f ∈ kept := (mem_sortLe _ f kept).mp hf
          have hex := (keepPairsNotExcluded_mem _ _ _ kept hk f).mp hf'
          refine ⟨f.1, ?_, hex.2⟩
          simpa [sectionEntry] using ht.symm

theorem rootFallbackEntries_target (fs : FS) (rootStr : String) (exclude : List String)
    (es : List Entry) (h : rootFallbackEntries fs rootStr exclude = .ok es) :
    ∀ e ∈ es, ∀ t, e.target = some t →
      is_excluded (pathStr rootStr [t]) exclude = .ok false := by
  intro e he t ht
  simp only [rootFallbackEntries] at h
  split at h
  · cases h
  · rename_i kept hk
    injection h with h
    subst h
    rcases List.mem_map.mp he with ⟨f, hf, rfl⟩
    have hf' : f ∈ kept := (mem_sortLe _ f kept).mp hf
    have hex := (keepPairsNotExcluded_mem _ _ _ kept hk f).mp hf'
    have hteq : t = f.1 := by simpa using ht.symm
    subst hteq
    exact hex.2

/-! ### Claim C2 -/


/-- C2 counterexample: the path `/book/README.md` matches the configured
exclusion pattern `"README"`, yet an Entry for it still appears in the
generated document — the root `README.md` entry is emitted without any
exclusion check, so the claim is false as stated. -/
theorem c2_counterexample :
    is_excluded "/book/README.md" ["README"] = .ok true ∧
    buildEntries fsC2 "/book" ["README"] =
      .ok [⟨0, "Welcome", some "README.md"⟩] := by
  constructor <;> rfl

/-- C2 (amended): every linked Entry of the generated document either has a
non-excluded path, or is one of the README entries (the root introduction
or a chapter `README.md`), which the code emits without consulting the
exclusion patterns. -/
theorem c2_targets_not_excluded (fs : FS) (rootStr : String) (exclude : List String)
    (es : List Entry) (h : buildEntries fs rootStr exclude = .ok es) :
    ∀ e ∈ es, ∀ t, e.target = some t →
      t = "README.md" ∨
      (∃ d, t = "chapters/" ++ d ++ "/README.md") ∨
      (∃ d n, t = "chapters/" ++ d ++ "/" ++ n ∧
        is_excluded (pathStr rootStr ["chapters", d, n]) exclude = .ok false) ∨
      is_excluded (pathStr rootStr [t]) exclude = .ok false := by
  intro e he t ht
  simp only [buildEntries] at h
  split at h
  · split at h
    · cases h
    · rename_i ds hds
      split at h
      · cases h
      · rename_i rest hrest
        injection h with h
        subst h
        rcases List.mem_append.mp he with h1 | h2
        · exact Or.inl (by simpa [introEntries_target fs e h1] using ht.symm)
        · obtain ⟨d, _, rd, hrd, herd⟩ := concatChapterEntries_mem _ ds rest hrest e h2
          rcases chapterEntries_target fs rootStr exclude d rd hrd e herd t ht with h3 | ⟨n, h3, h4⟩
          · exact Or.inr (Or.inl ⟨d, h3⟩)
          · exact Or.inr (Or.inr (Or.inl ⟨d, n, h3, h4⟩))
  · split at h
    · cases h
    · rename_i rest hrest
      injection h with h
      subst h
      rcases List.mem_append.mp he with h1 | h2
      · exact Or.inl (by simpa [introEntries_target fs e h1] using ht.symm)
      · exact Or.inr (Or.inr (Or.inr (rootFallbackEntries_target fs rootStr exclude rest hrest e h2 t ht)))

/-- C2 amended-claim witness at a concrete book: the single emitted target
`README.md` falls under the README disjunct of the amended claim. -/
theorem c2_targets_not_excluded_witness :
    ("README.md" : String) = "README.md" ∨
    (∃ d, ("README.md" : String) = "chapters/" ++ d ++ "/README.md") ∨
    (∃ d n, ("README.md" : String) = "chapters/" ++ d ++ "/" ++ n ∧
      is_excluded (pathStr "/book" ["chapters", d, n]) ["README"] = .ok false) ∨
    is_excluded (pathStr "/book" ["README.md"]) ["README"] = .ok false :=
  c2_targets_not_excluded fsC2 "/book" ["README"] [⟨0, "Welcome", some "README.md"⟩] rfl
    ⟨0, "Welcome", some "README.md"⟩ (List.mem_cons_self _ _) "README.md" rfl

/-! ### Claims C4 and C5 -/


theorem headingOfLine_hash_space (t : String) (ht : t ≠ "") :
    headingOfLine ("# " ++ t) = some t := by
  cases t with
  | mk data =>
    have hne : data ≠ [] := fun hnil => ht (by subst hnil; rfl)
    have hd : ("# " ++ String.mk data).data = '#' :: ' ' :: data := by
      rw [String.data_append]
      rfl
    simp only [headingOfLine, hd]
    cases data with
    | nil => exact absurd rfl hne
    | cons a as => rfl

theorem firstHeading_of_split (pre : List String) (line : String) (rest : List String)
    (hpre : ∀ l ∈ pre, headingOfLine l = none) (t : String)
    (hline : headingOfLine line = some t) :
    firstHeading (pre ++ line :: rest) = some t := by
  induction pre with
  | nil => simp only [List.nil_append, firstHeading, hline]
  | cons p ps ih =>
    have hp := hpre p (List.mem_cons_self _ _)
    simp only [List.cons_append, firstHeading, hp]
    exact ih (fun l hl => hpre l (List.mem_cons_of_mem _ hl))

/-- C4 counterexample: for content whose first heading line is
`"# Title "` (trailing blank), the claim says `extract_title` returns the
trimmed text `"Title"`; the code returns the raw group `"Title "`,
untrimmed. -/
theorem c4_counterexample :
    extract_title "t.md" (some "# Title \nbody") = "Title " ∧
    pyStrip "Title " = "Title" ∧ ("Title " : String) ≠ "Title" :=
  ⟨rfl, rfl, by decide⟩

/-- C4 (amended): for every content whose line list splits as some
non-heading lines, then a line `"# " ++ t` with `t` non-empty,
`extract_title` returns exactly `t` — the raw text after `"# "` up to the
end of the line, with NO whitespace trimming, regardless of all later
content. -/
theorem c4_first_heading_raw (name c t : String) (pre rest : List String)
    (hsplit : linesOf c = pre ++ ("# " ++ t) :: rest)
    (hpre : ∀ l ∈ pre, headingOfLine l = none)
    (ht : t ≠ "") :
    extract_title name (some c) = t := by
  simp only [extract_title, hsplit,
    firstHeading_of_split pre _ rest hpre t (headingOfLine_hash_space t ht)]

/-- C4 amended-claim witness on concrete content. -/
theorem c4_first_heading_raw_witness :
    extract_title "t.md" (some "intro\n# My Title \nstuff") = "My Title " :=
  c4_first_heading_raw "t.md" "intro\n# My Title \nstuff" "My Title "
    ["intro"] ["stuff"] rfl (by intro l hl; simp at hl; subst hl; rfl) (by decide)

theorem firstHeading_none (ls : List String) (h : ∀ l ∈ ls, headingOfLine l = none) :
    firstHeading ls = none := by
  induction ls with
  | nil => rfl
  | cons l rest ih =>
    simp only [firstHeading, h l (List.mem_cons_self _ _)]
    exact ih (fun l' hl' => h l' (List.mem_cons_of_mem _ hl'))

/-- C5 counterexample: for a file named `my_notes.md` with no heading, the
claim says the derived title replaces underscores by spaces, giving
`"My Notes"`; the code only replaces hyphens, so `str.title()` yields
`"My_Notes"`. -/
theorem c5_counterexample :
    extract_title "my_notes.md" (some "plain text") = "My_Notes" ∧
    ("My_Notes" : String) ≠ "My Notes" :=
  ⟨rfl, by decide⟩

/-- C5 (amended): when no line of the content matches `^# (.+)$`, and also
when the content cannot be read at all, `extract_title` returns the derived
title — the file name without its extension, with hyphens (but NOT
underscores) replaced by spaces, then Python title-casing — and being a
total function it never raises. -/
theorem c5_fallback_title (name c : String)
    (h : ∀ l ∈ linesOf c, headingOfLine l = none) :
    extract_title name (some c) = pyTitle (replaceDash (splitextStem name)) ∧
    extract_title name none = pyTitle (replaceDash (splitextStem name)) := by
  constructor
  · simp only [extract_title, firstHeading_none (linesOf c) h, derivedTitle]
  · rfl

/-- C5 amended-claim witness on a concrete heading-free file. -/
theorem c5_fallback_title_witness :
    extract_title "my_notes.md" (some "plain text") = pyTitle (replaceDash (splitextStem "my_notes.md")) ∧
    extract_title "my_notes.md" none = pyTitle (replaceDash (splitextStem "my_notes.md")) :=
  c5_fallback_title "my_notes.md" "plain text"
    (by intro l hl; simp [linesOf, splitNl] at hl; subst hl; rfl)

/-! ### Claims C1 and C9 -/

/-- C1: with the output configured under the book root (as `main` wires
it), a missing book root makes the run fail with a descriptive error and
no filesystem change (the error case returns no filesystem at all); and
every successful run replaces exactly the output file with the whole
in-memory document — built completely before the single write — leaving
every other path untouched. -/
theorem c1_missing_root_fatal_and_single_write (fs : FS) (rootStr : String) (name : String)
    (exclude : List String) :
    (fs.rootExists = false → ∃ m, generate_summary fs rootStr [name] exclude = .error m) ∧
    (∀ fs2 c, generate_summary fs rootStr [name] exclude = .ok (fs2, c) →
      fs2.rootExists = fs.rootExists ∧ fs2.dirs = fs.dirs ∧
      fs2.files = setFileList fs.files [name] (String.join c) ∧
      lookupFile fs2.files [name] = some (String.join c) ∧
      ∀ q, q ≠ [name] → lookupFile fs2.files q = lookupFile fs.files q) := by
  constructor
  · intro h
    refine ⟨"FileNotFoundError: No such file or directory: " ++ pathStr "" [name], ?_⟩
    simp [generate_summary, buildContent, buildEntries, FS.isDir, h, rootFallbackEntries,
      globMdFiles, keepPairsNotExcluded, sortPairs, sortLe, introEntries, writeOutput,
      parentDirOk]
  · intro fs2 c hok
    simp only [generate_summary] at hok
    split at hok
    · cases hok
    · rename_i content hcontent
      split at hok
      · cases hok
      · rename_i fs3 hw
        injection hok with hok
        simp only [Prod.mk.injEq] at hok
        obtain ⟨h1, h2⟩ := hok
        subst h1
        subst h2
        simp only [writeOutput] at hw
        split at hw
        · injection hw with hw
          subst hw
          refine ⟨rfl, rfl, rfl, lookup_setFileList_self _ _ _, ?_⟩
          intro q hq
          exact lookup_setFileList_ne _ _ _ _ hq
        · cases hw

/-- C1 witness: a run on a missing root errors, and a successful concrete
run writes the full document in one replacement. -/
theorem c1_missing_root_fatal_and_single_write_witness :
    (∃ m, generate_summary ⟨false, [], []⟩ "/nope" ["SUMMARY.md"] defaultExclude = .error m) ∧
    (lookupFile (setFileList ([] : List (RelPath × String)) ["SUMMARY.md"] (String.join ["# Summary\n\n"]))
        ["SUMMARY.md"] = some (String.join ["# Summary\n\n"])) := by
  constructor
  · exact (c1_missing_root_fatal_and_single_write ⟨false, [], []⟩ "/nope" "SUMMARY.md"
      defaultExclude).1 rfl
  · have h := (c1_missing_root_fatal_and_single_write ⟨true, [], []⟩ "/b" "SUMMARY.md"
      defaultExclude).2 ⟨true, [(["SUMMARY.md"], "# Summary\n\n")], []⟩ ["# Summary\n\n"] rfl
    exact h.2.2.1 ▸ h.2.2.2.1


theorem renderEntry_isEntryLine (e : Entry) : isEntryLine (renderEntry e) := by
  have h1 : ("* [" : String).data = ['*', ' ', '['] := rfl
  have h2 : ("  * [" : String).data = [' ', ' ', '*', ' ', '['] := rfl
  cases e with
  | mk depth title target =>
    cases target with
    | none =>
      left
      refine ⟨(title ++ "]\n").data, ?_⟩
      simp [renderEntry, String.data_append, h1]
    | some p =>
      by_cases hd : depth = 0
      · left
        refine ⟨(title ++ "](" ++ p ++ ")\n").data, ?_⟩
        simp [renderEntry, hd, String.data_append, h1]
      · right
        refine ⟨(title ++ "](" ++ p ++ ")\n").data, ?_⟩
        simp [renderEntry, hd, String.data_append, h2]

/-- C9: whenever the builder completes, the content list is non-empty, its
first element is exactly the header `"# Summary\n\n"` (the `# Summary`
line followed by a blank line), and every later element is an entry
line. -/
theorem c9_header_then_entry_lines (fs : FS) (rootStr : String) (exclude : List String)
    (c : List String) (h : buildContent fs rootStr exclude = .ok c) :
    ∃ body, c = "# Summary\n\n" :: body ∧ ∀ l ∈ body, isEntryLine l := by
  simp only [buildContent] at h
  split at h
  · cases h
  · rename_i es hes
    injection h with h
    subst h
    refine ⟨es.map renderEntry, rfl, ?_⟩
    intro l hl
    rcases List.mem_map.mp hl with ⟨e, _, rfl⟩
    exact renderEntry_isEntryLine e

/-- C9 witness: the builder run on an empty, nonexistent root still yields
the bare header document. -/
theorem c9_header_then_entry_lines_witness :
    ∃ body, (["# Summary\n\n"] : List String) = "# Summary\n\n" :: body ∧
      ∀ l ∈ body, isEntryLine l :=
  c9_header_then_entry_lines ⟨false, [], []⟩ "/nope" defaultExclude ["# Summary\n\n"] rfl

/-! ### Claim C10 -/


/-- C10 counterexample: the exclusion list contains the invalid pattern
`"["`, yet on the first (and only) path tested, the earlier pattern `"x"`
matches and `is_excluded` short-circuits to `True` without ever compiling
the invalid pattern — no exception is raised and the whole run
succeeds. -/
theorem c10_counterexample :
    parsePattern "[" = none ∧
    is_excluded "/book/chapters/x" ["x", "["] = .ok true ∧
    generate_summary fsC10 "/book" ["SUMMARY.md"] ["x", "["] =
      .ok (⟨true, [(["SUMMARY.md"], "# Summary\n\n")], [["chapters"], ["chapters", "x"]]⟩,
           ["# Summary\n\n"]) :=
  ⟨rfl, rfl, rfl⟩

theorem is_excluded_reaches_invalid (path bad : String) (post : List String)
    (hbad : parsePattern bad = none) :
    ∀ pre : List String, (∀ p ∈ pre, reSearch p path = some false) →
      is_excluded path (pre ++ bad :: post) = .error ("re.error: invalid pattern " ++ bad)
  | [], _ => by simp [is_excluded, reSearch, hbad]
  | p :: ps, hpre => by
    simp only [List.cons_append, is_excluded, hpre p (List.mem_cons_self _ _)]
    exact is_excluded_reaches_invalid path bad post hbad ps
      (fun q hq => hpre q (List.mem_cons_of_mem _ hq))

/-- C10 (amended): an invalid pattern makes `is_excluded` raise only when
it is reached — that is, when no earlier pattern matches the tested path —
and in that case the exception is not caught anywhere in
`generate_summary`: the whole run aborts with the error. -/
theorem c10_invalid_pattern_propagates (pre post : List String) (bad path : String)
    (hbad : parsePattern bad = none)
    (hpre : ∀ p ∈ pre, reSearch p path = some false) :
    (∃ m, is_excluded path (pre ++ bad :: post) = .error m) ∧
    (∀ (fs : FS) (rootStr : String) (out : RelPath) (d : String),
      fs.isDir ["chapters"] = true →
      subdirNames fs ["chapters"] = [d] →
      pathStr rootStr ["chapters", d] = path →
      ∃ m, generate_summary fs rootStr out (pre ++ bad :: post) = .error m) := by
  have herr := is_excluded_reaches_invalid path bad post hbad pre hpre
  constructor
  · exact ⟨_, herr⟩
  · intro fs rootStr out d hch hsub hpath
    refine ⟨"re.error: invalid pattern " ++ bad, ?_⟩
    simp [generate_summary, buildContent, buildEntries, hch, chapterDirsOf, hsub,
      keepNotExcluded, hpath, herr]

/-- C10 amended-claim witness: with exclusion list `["zzz", "["]` the run
on a one-chapter book aborts with the regex error. -/
theorem c10_invalid_pattern_propagates_witness :
    ∃ m, generate_summary fsC10 "/book" ["SUMMARY.md"] (["zzz"] ++ "[" :: []) = .error m :=
  (c10_invalid_pattern_propagates ["zzz"] [] "[" "/book/chapters/x" rfl
    (by intro p hp; simp at hp; subst hp; rfl)).2
    fsC10 "/book" ["SUMMARY.md"] "x" rfl rfl rfl

/-! ### Claim C7 -/


/-- C7: the chapter directory list handed to the rendering loop is always
sorted lexicographically (by code points), and on the spec's concrete
example `01-intro`, `02-setup`, `10-appendix` the generated document lists
the chapters in exactly that numeric order. -/
theorem c7_chapter_order :
    (∀ (fs : FS) (rootStr : String) (exclude : List String) (l : List String),
      chapterDirsOf fs rootStr exclude = .ok l →
        l.Pairwise (fun a b => strLe a b = true)) ∧
    buildEntries fsC7 "/book" defaultExclude =
      .ok [⟨0, "Intro", some "chapters/01-intro/README.md"⟩,
           ⟨0, "Setup", some "chapters/02-setup/README.md"⟩,
           ⟨0, "Appendix", some "chapters/10-appendix/README.md"⟩] := by
  constructor
  · intro fs rootStr exclude l h
    simp only [chapterDirsOf] at h
    split at h
    · cases h
    · rename_i kept hk
      injection h with h
      subst h
      simpa [sortNames] using pairwise_sortLe strLe strLe_total strLe_trans kept
  · rfl

/-- C7 witness: the sortedness part applied to the concrete
three-chapter book. -/
theorem c7_chapter_order_witness :
    (["01-intro", "02-setup", "10-appendix"] : List String).Pairwise
      (fun a b => strLe a b = true) :=
  c7_chapter_order.1 fsC7 "/book" defaultExclude ["01-intro", "02-setup", "10-appendix"] rfl

/-! ### Claim C3 -/


theorem any_setFileList (k : RelPath) (v : String) (g : RelPath → Bool) (hg : g k = false) :
    ∀ l : List (RelPath × String),
      (setFileList l k v).any (fun f => g f.1) = l.any (fun f => g f.1)
  | [] => by
    have hset : setFileList [] k v = [(k, v)] := rfl
    rw [hset, List.any_cons, List.any_nil, hg]
    rfl
  | f :: rest => by
    by_cases hfk : f.1 = k
    · have hset : setFileList (f :: rest) k v = (k, v) :: rest := by
        simp [setFileList, hfk]
      rw [hset, List.any_cons, List.any_cons, hg, hfk, hg]
    · have hset : setFileList (f :: rest) k v = f :: setFileList rest k v := by
        simp [setFileList, hfk]
      rw [hset, List.any_cons, List.any_cons, any_setFileList k v g hg rest]

theorem filterMap_setFileList_none {β : Type} (k : RelPath) (v : String)
    (hf : RelPath × String → Option β) (h : ∀ w, hf (k, w) = none) :
    ∀ l : List (RelPath × String),
      (setFileList l k v).filterMap hf = l.filterMap hf
  | [] => by
    have hset : setFileList [] k v = [(k, v)] := rfl
    rw [hset, List.filterMap_cons, h v]
  | f :: rest => by
    by_cases hfk : f.1 = k
    · have hset : setFileList (f :: rest) k v = (k, v) :: rest := by
        simp [setFileList, hfk]
      have hfe : f = (k, f.2) := Prod.ext hfk rfl
      rw [hset, List.filterMap_cons, List.filterMap_cons, h v, hfe, h f.2]
    · have hset : setFileList (f :: rest) k v = f :: setFileList rest k v := by
        simp [setFileList, hfk]
      rw [hset, List.filterMap_cons, List.filterMap_cons,
        filterMap_setFileList_none k v hf h rest]

theorem filter_filterMap_setFileList {β : Type} (k : RelPath) (v : String)
    (hf : RelPath × String → Option β) (pred : β → Bool)
    (h : ∀ w x, hf (k, w) = some x → pred x = false) :
    ∀ l : List (RelPath × String),
      ((setFileList l k v).filterMap hf).filter pred = (l.filterMap hf).filter pred
  | [] => by
    have hset : setFileList [] k v = [(k, v)] := rfl
    rw [hset, List.filterMap_cons]
    cases hx : hf (k, v) with
    | none => rfl
    | some x => simp [List.filter_cons, h v x hx]
  | f :: rest => by
    by_cases hfk : f.1 = k
    · have hset : setFileList (f :: rest) k v = (k, v) :: rest := by
        simp [setFileList, hfk]
      have hfe : f = (k, f.2) := Prod.ext hfk rfl
      rw [hset, List.filterMap_cons, List.filterMap_cons]
      cases hx : hf (k, v) with
      | none =>
        rw [hfe]
        cases hy : hf (k, f.2) with
        | none => rfl
        | some y => simp [List.filter_cons, h f.2 y hy]
      | some x =>
        rw [hfe]
        cases hy : hf (k, f.2) with
        | none => simp [List.filter_cons, h v x hx]
        | some y => simp [List.filter_cons, h v x hx, h f.2 y hy]
    · have hset : setFileList (f :: rest) k v = f :: setFileList rest k v := by
        simp [setFileList, hfk]
      rw [hset, List.filterMap_cons, List.filterMap_cons]
      cases hy : hf f with
      | none => exact filter_filterMap_setFileList k v hf pred h rest
      | some y =>
        simp only [List.filter_cons]
        rw [filter_filterMap_setFileList k v hf pred h rest]

theorem isDir_setSummary (fs : FS) (v : String) (p : RelPath)
    (h : properPrefixOf p ["SUMMARY.md"] = false) :
    (setSummary fs v).isDir p = fs.isDir p := by
  simp only [setSummary, FS.isDir,
    any_setFileList ["SUMMARY.md"] v (fun q => properPrefixOf p q) h fs.files]

theorem subdirNames_setSummary (fs : FS) (v : String) :
    subdirNames (setSummary fs v) ["chapters"] = subdirNames fs ["chapters"] := by
  simp only [subdirNames, setSummary,
    filterMap_setFileList_none ["SUMMARY.md"] v
      (fun f => childName ["chapters"] f.1) (fun w => rfl) fs.files]
  exact List.filter_congr (fun n _ => isDir_setSummary fs v (["chapters"] ++ [n]) rfl)

theorem glob_chapter_setSummary (fs : FS) (v : String) (d : String) :
    globMdFiles (setSummary fs v) ["chapters", d] = globMdFiles fs ["chapters", d] := by
  simp only [globMdFiles, setSummary]
  cases hr : fs.rootExists with
  | false => rfl
  | true =>
    simp only [if_true]
    exact filterMap_setFileList_none ["SUMMARY.md"] v _ (fun w => rfl) fs.files

theorem glob_root_filtered_setSummary (fs : FS) (v : String) :
    (globMdFiles (setSummary fs v) []).filter notReadmeSummaryName =
      (globMdFiles fs []).filter notReadmeSummaryName := by
  simp only [globMdFiles, setSummary]
  cases hr : fs.rootExists with
  | false => rfl
  | true =>
    simp only [if_true]
    exact filter_filterMap_setFileList ["SUMMARY.md"] v _ _
      (fun w x hx => by cases hx; rfl) fs.files

theorem chapterEntries_setSummary (fs : FS) (rootStr : String) (exclude : List String)
    (v : String) (d : String) :
    chapterEntries (setSummary fs v) rootStr exclude d = chapterEntries fs rootStr exclude d := by
  have hl : lookupFile (setSummary fs v).files ["chapters", d, "README.md"] =
      lookupFile fs.files ["chapters", d, "README.md"] :=
    lookup_setFileList_ne fs.files ["SUMMARY.md"] ["chapters", d, "README.md"] v (by simp)
  simp only [chapterEntries, hl, glob_chapter_setSummary fs v d]

theorem chapterDirsOf_setSummary (fs : FS) (rootStr : String) (exclude : List String)
    (v : String) :
    chapterDirsOf (setSummary fs v) rootStr exclude = chapterDirsOf fs rootStr exclude := by
  simp only [chapterDirsOf, subdirNames_setSummary fs v]

theorem introEntries_setSummary (fs : FS) (v : String) :
    introEntries (setSummary fs v) = introEntries fs := by
  have hl : lookupFile (setSummary fs v).files ["README.md"] =
      lookupFile fs.files ["README.md"] :=
    lookup_setFileList_ne fs.files ["SUMMARY.md"] ["README.md"] v (by simp)
  have hr : (setSummary fs v).rootExists = fs.rootExists := rfl
  simp only [introEntries, hl, hr]

theorem rootFallback_setSummary (fs : FS) (rootStr : String) (exclude : List String)
    (v : String) :
    rootFallbackEntries (setSummary fs v) rootStr exclude =
      rootFallbackEntries fs rootStr exclude := by
  simp only [rootFallbackEntries, glob_root_filtered_setSummary fs v]

theorem buildEntries_setSummary (fs : FS) (rootStr : String) (exclude : List String)
    (v : String) :
    buildEntries (setSummary fs v) rootStr exclude = buildEntries fs rootStr exclude := by
  have hce : chapterEntries (setSummary fs v) rootStr exclude =
      chapterEntries fs rootStr exclude :=
    funext (chapterEntries_setSummary fs rootStr exclude v)
  simp only [buildEntries, isDir_setSummary fs v ["chapters"] rfl,
    chapterDirsOf_setSummary fs rootStr exclude v, hce,
    introEntries_setSummary fs v, rootFallback_setSummary fs rootStr exclude v]




/-- C3 counterexample: with the fixed arguments output `TOC.md` and the
default exclusions, the second run on the unchanged tree additionally
lists the output file produced by the first run (only `README.md` and the
hardcoded name `SUMMARY.md` are skipped), so the two outputs are not
byte-identical. -/
theorem c3_counterexample :
    generate_summary fsC3 "/book" ["TOC.md"] defaultExclude =
      .ok (fsC3run1, ["# Summary\n\n", "* [A](a.md)\n"]) ∧
    generate_summary fsC3run1 "/book" ["TOC.md"] defaultExclude =
      .ok (fsC3run2, ["# Summary\n\n", "* [Summary](TOC.md)\n", "* [A](a.md)\n"]) ∧
    (["# Summary\n\n", "* [A](a.md)\n"] : List String) ≠
      ["# Summary\n\n", "* [Summary](TOC.md)\n", "* [A](a.md)\n"] :=
  ⟨rfl, rfl, by decide⟩

theorem writeOutput_setSummary (fs : FS) (content : List String)
    (hroot : fs.rootExists = true) :
    writeOutput (setSummary fs (String.join content)) ["SUMMARY.md"] content =
      .ok (setSummary fs (String.join content)) := by
  simp [writeOutput, parentDirOk, setSummary, setFileList_setFileList, hroot]

/-- C3 (amended): with the default output file — `SUMMARY.md` directly in
the book root, which the scan always skips — a second run on the resulting
tree returns exactly the same filesystem and byte-identical content. -/
theorem c3_idempotent_default_output (fs : FS) (rootStr : String) (exclude : List String)
    (fs1 : FS) (c1 : List String)
    (h : generate_summary fs rootStr ["SUMMARY.md"] exclude = .ok (fs1, c1)) :
    generate_summary fs1 rootStr ["SUMMARY.md"] exclude = .ok (fs1, c1) := by
  simp only [generate_summary] at h
  split at h
  · cases h
  · rename_i content hcontent
    split at h
    · cases h
    · rename_i fs3 hw
      injection h with h
      simp only [Prod.mk.injEq] at h
      obtain ⟨h1, h2⟩ := h
      subst h1
      subst h2
      simp only [writeOutput] at hw
      split at hw
      · rename_i hpd
        injection hw with hw
        have hfs1 : fs3 = setSummary fs (String.join content) := hw.symm
        subst hfs1
        have hbc : buildContent (setSummary fs (String.join content)) rootStr exclude =
            .ok content := by
          simp only [buildContent, buildEntries_setSummary fs rootStr exclude (String.join content)]
          simpa only [buildContent] using hcontent
        have hroot : fs.rootExists = true := by
          simpa only [parentDirOk, List.dropLast] using hpd
        simp only [generate_summary, hbc, writeOutput_setSummary fs content hroot]
      · cases hw

/-- C3 amended-claim witness: a concrete second run reproduces the first
run's tree and content exactly. -/
theorem c3_idempotent_default_output_witness :
    generate_summary ⟨true, [(["a.md"], "x"), (["SUMMARY.md"], "# Summary\n\n* [A](a.md)\n")], []⟩
      "/book" ["SUMMARY.md"] defaultExclude =
    .ok (⟨true, [(["a.md"], "x"), (["SUMMARY.md"], "# Summary\n\n* [A](a.md)\n")], []⟩,
         ["# Summary\n\n", "* [A](a.md)\n"]) :=
  c3_idempotent_default_output ⟨true, [(["a.md"], "x")], []⟩ "/book" defaultExclude
    ⟨true, [(["a.md"], "x"), (["SUMMARY.md"], "# Summary\n\n* [A](a.md)\n")], []⟩
    ["# Summary\n\n", "* [A](a.md)\n"] rfl

/-! ### Claim C6 -/



/-- C6 counterexample: with the output configured as `TOC.md`, the
generated document still lists `TOC.md` itself — only the hardcoded names
`README.md` and `SUMMARY.md` are skipped, not the configured output file —
so the claim's "excluding … the output file itself … for any configured
output file path" is false. -/
theorem c6_counterexample :
    generate_summary fsC6 "/book" ["TOC.md"] defaultExclude =
      .ok (fsC6run, ["# Summary\n\n", "* [Toc](TOC.md)\n", "* [A](a.md)\n"]) ∧
    ("* [Toc](TOC.md)\n" : String) ∈ ["# Summary\n\n", "* [Toc](TOC.md)\n", "* [A](a.md)\n"] :=
  ⟨rfl, by decide⟩

/-- C6 (amended): for every existing book root with no `chapters/`
subdirectory, the generated entry list is the introduction entry (when a
root `README.md` exists) followed by exactly the root `*.md` files that
are not named `README.md` or `SUMMARY.md` (hardcoded names — not the
configured output path) and not excluded, each as a depth-0 linked Entry,
sorted by filename. -/
theorem c6_root_listing (fs : FS) (rootStr : String) (exclude : List String) (es : List Entry)
    (hroot : fs.rootExists = true)
    (hch : fs.isDir ["chapters"] = false)
    (hb : buildEntries fs rootStr exclude = .ok es) :
    ∃ rest, es = introEntries fs ++ rest ∧
    (∀ e ∈ rest, ∃ n c, (([n] : RelPath), c) ∈ fs.files ∧ isMdName n = true ∧
        n ≠ "README.md" ∧ n ≠ "SUMMARY.md" ∧
        is_excluded (pathStr rootStr [n]) exclude = .ok false ∧
        e = ⟨0, extract_title n (some c), some n⟩) ∧
    (∀ n c, (([n] : RelPath), c) ∈ fs.files → isMdName n = true →
        n ≠ "README.md" → n ≠ "SUMMARY.md" →
        is_excluded (pathStr rootStr [n]) exclude = .ok false →
        ∃ e ∈ rest, e.target = some n) ∧
    rest.Pairwise (fun a b => ∀ s t, a.target = some s → b.target = some t →
      strLe s t = true) := by
  simp only [buildEntries, hch, Bool.false_eq_true, if_false] at hb
  split at hb
  · cases hb
  · rename_i rest hrest
    injection hb with hb
    subst hb
    simp only [rootFallbackEntries] at hrest
    split at hrest
    · cases hrest
    · rename_i kept hk
      injection hrest with hrest
      subst hrest
      refine ⟨_, rfl, ?_, ?_, ?_⟩
      · intro e he
        rcases List.mem_map.mp he with ⟨f, hf, rfl⟩
        have hf' : f ∈ kept := (mem_sortLe _ f kept).mp hf
        have hm := (keepPairsNotExcluded_mem _ _ _ kept hk f).mp hf'
        obtain ⟨hfil, hexcl⟩ := hm
        obtain ⟨hglob, hpred⟩ := List.mem_filter.mp hfil
        obtain ⟨hn1, hn2⟩ : f.1 ≠ "README.md" ∧ f.1 ≠ "SUMMARY.md" := by
          simpa [notReadmeSummaryName] using hpred
        have hgm := (mem_globMdFiles fs [] f.1 f.2).mp (by simpa using hglob)
        refine ⟨f.1, f.2, by simpa using hgm.2.1, hgm.2.2, hn1, hn2, hexcl, rfl⟩
      · intro n c hmem hmd hn1 hn2 hexcl
        have hglob : (n, c) ∈ globMdFiles fs [] :=
          (mem_globMdFiles fs [] n c).mpr ⟨hroot, by simpa using hmem, hmd⟩
        have hfil : (n, c) ∈ (globMdFiles fs []).filter notReadmeSummaryName :=
          List.mem_filter.mpr ⟨hglob, by simp [notReadmeSummaryName, hn1, hn2]⟩
        have hkept : (n, c) ∈ kept :=
          (keepPairsNotExcluded_mem _ _ _ kept hk (n, c)).mpr ⟨hfil, hexcl⟩
        have hsorted : (n, c) ∈ sortPairs kept := (mem_sortLe _ (n, c) kept).mpr hkept
        exact ⟨⟨0, extract_title n (some c), some n⟩,
          List.mem_map_of_mem _ hsorted, rfl⟩
      · have hpw : (sortPairs kept).Pairwise (fun a b => strLe a.1 b.1 = true) :=
          pairwise_sortLe _ (fun a b => strLe_total a.1 b.1)
            (fun a b c h1 h2 => strLe_trans a.1 b.1 c.1 h1 h2) kept
        refine List.pairwise_map.mpr (hpw.imp ?_)
        intro a b hab s t hs ht
        have hs' : s = a.1 := by simpa using hs.symm
        have ht' : t = b.1 := by simpa using ht.symm
        subst hs'
        subst ht'
        exact hab

/-- C6 amended-claim witness on a chapterless root that does contain a
root `README.md`: the document is the intro entry followed by exactly the
listing (`b.md` only — `README.md` and `SUMMARY.md` are name-filtered). -/
theorem c6_root_listing_witness :
    ∃ rest, ([Entry.mk 0 "Home" (some "README.md"), Entry.mk 0 "B" (some "b.md")] : List Entry) =
        introEntries fsC6w ++ rest ∧
    (∀ e ∈ rest, ∃ n c, (([n] : RelPath), c) ∈ fsC6w.files ∧ isMdName n = true ∧
        n ≠ "README.md" ∧ n ≠ "SUMMARY.md" ∧
        is_excluded (pathStr "/book" [n]) defaultExclude = .ok false ∧
        e = ⟨0, extract_title n (some c), some n⟩) ∧
    (∀ n c, (([n] : RelPath), c) ∈ fsC6w.files → isMdName n = true →
        n ≠ "README.md" → n ≠ "SUMMARY.md" →
        is_excluded (pathStr "/book" [n]) defaultExclude = .ok false →
        ∃ e ∈ rest, e.target = some n) ∧
    rest.Pairwise (fun a b => ∀ s t, a.target = some s → b.target = some t →
      strLe s t = true) :=
  c6_root_listing fsC6w "/book" defaultExclude
    [⟨0, "Home", some "README.md"⟩, ⟨0, "B", some "b.md"⟩] rfl rfl rfl

/-! ### Claim C8 -/

theorem charsLe_append_left : ∀ (p a b : List Char), charsLe (p ++ a) (p ++ b) = charsLe a b
  | [], _, _ => rfl
  | c :: cs, a, b => by
    simp only [List.cons_append, charsLe, if_pos rfl]
    exact charsLe_append_left cs a b

theorem strLe_append_left (s x y : String) : strLe (s ++ x) (s ++ y) = strLe x y := by
  simp only [strLe, String.data_append, charsLe_append_left]

/-- C8: a non-excluded chapter directory without a `README.md` yields
either nothing (when it has no non-excluded markdown file) or exactly one
synthetic unlinked depth-0 Entry — titled by the directory name with
hyphens replaced by spaces and title-cased — followed by the non-excluded
markdown files as depth-1 linked Entries sorted by filename. -/
theorem c8_no_readme_chapter (fs : FS) (rootStr : String) (exclude : List String) (d : String)
    (es : List Entry)
    (hroot : fs.rootExists = true)
    (hnoR : lookupFile fs.files ["chapters", d, "README.md"] = none)
    (h : chapterEntries fs rootStr exclude d = .ok es) :
    (es = [] ∧ ∀ n c, ((["chapters", d, n] : RelPath), c) ∈ fs.files → isMdName n = true →
        is_excluded (pathStr rootStr ["chapters", d, n]) exclude = .ok false → False) ∨
    (∃ tl, es = ⟨0, pyTitle (replaceDash d), none⟩ :: tl ∧ tl ≠ [] ∧
      (∀ e ∈ tl, e.depth = 1 ∧ ∃ n c, ((["chapters", d, n] : RelPath), c) ∈ fs.files ∧
        isMdName n = true ∧
        is_excluded (pathStr rootStr ["chapters", d, n]) exclude = .ok false ∧
        e = ⟨1, extract_title n (some c), some ("chapters/" ++ d ++ "/" ++ n)⟩) ∧
      (∀ n c, ((["chapters", d, n] : RelPath), c) ∈ fs.files → isMdName n = true →
        is_excluded (pathStr rootStr ["chapters", d, n]) exclude = .ok false →
        ∃ e ∈ tl, e.target = some ("chapters/" ++ d ++ "/" ++ n)) ∧
      tl.Pairwise (fun a b => ∀ s t, a.target = some s → b.target = some t →
        strLe s t = true)) := by
  simp only [chapterEntries, hnoR] at h
  split at h
  · cases h
  · rename_i kept hk
    have hmemk : ∀ n c, ((n, c) ∈ kept ↔
        ((["chapters", d, n] : RelPath), c) ∈ fs.files ∧ isMdName n = true ∧
        is_excluded (pathStr rootStr ["chapters", d, n]) exclude = .ok false) := by
      intro n c
      rw [keepPairsNotExcluded_mem _ _ _ kept hk (n, c), mem_globMdFiles fs ["chapters", d] n c]
      constructor
      · rintro ⟨⟨_, hmem, hmd⟩, hexcl⟩
        exact ⟨by simpa using hmem, hmd, hexcl⟩
      · rintro ⟨hmem, hmd, hexcl⟩
        exact ⟨⟨hroot, by simpa using hmem, hmd⟩, hexcl⟩
    split at h
    · rename_i hs
      injection h with h
      subst h
      left
      refine ⟨rfl, ?_⟩
      intro n c hmem hmd hexcl
      have : (n, c) ∈ sortPairs kept :=
        (mem_sortLe _ (n, c) kept).mpr ((hmemk n c).mpr ⟨hmem, hmd, hexcl⟩)
      rw [hs] at this
      exact absurd this (by simp)
    · rename_i hs
      injection h with h
      subst h
      right
      refine ⟨(sortPairs kept).map (sectionEntry d), rfl, ?_, ?_, ?_, ?_⟩
      · intro hnil
        exact hs (by simpa using hnil)
      · intro e he
        rcases List.mem_map.mp he with ⟨f, hf, rfl⟩
        have hf' := (hmemk f.1 f.2).mp ((mem_sortLe _ f kept).mp hf)
        exact ⟨rfl, f.1, f.2, hf'.1, hf'.2.1, hf'.2.2, rfl⟩
      · intro n c hmem hmd hexcl
        have hsorted : (n, c) ∈ sortPairs kept :=
          (mem_sortLe _ (n, c) kept).mpr ((hmemk n c).mpr ⟨hmem, hmd, hexcl⟩)
        exact ⟨sectionEntry d (n, c), List.mem_map_of_mem _ hsorted, rfl⟩
      · have hpw : (sortPairs kept).Pairwise (fun a b => strLe a.1 b.1 = true) :=
          pairwise_sortLe _ (fun a b => strLe_total a.1 b.1)
            (fun a b c h1 h2 => strLe_trans a.1 b.1 c.1 h1 h2) kept
        refine List.pairwise_map.mpr (hpw.imp ?_)
        intro a b hab s t hs' ht'
        have hsa : s = "chapters/" ++ d ++ "/" ++ a.1 := by
          simpa [sectionEntry] using hs'.symm
        have htb : t = "chapters/" ++ d ++ "/" ++ b.1 := by
          simpa [sectionEntry] using ht'.symm
        subst hsa
        subst htb
        rw [strLe_append_left ("chapters/" ++ d ++ "/") a.1 b.1]
        exact hab

/-- C8 witness on the spec's scenario: the chapter `03-extra-topic` with
one `notes.md` and no `README.md` yields the synthetic heading and one
nested entry. -/
theorem c8_no_readme_chapter_witness :
    ((⟨0, "03 Extra Topic", none⟩ ::
        [⟨1, "My Notes", some "chapters/03-extra-topic/notes.md"⟩] : List Entry) = [] ∧
      (∀ n c, ((["chapters", "03-extra-topic", n] : RelPath), c) ∈ noReadmeFs.files →
        isMdName n = true →
        is_excluded (pathStr "/book" ["chapters", "03-extra-topic", n]) defaultExclude =
          .ok false → False)) ∨
    (∃ tl, (⟨0, "03 Extra Topic", none⟩ ::
        [⟨1, "My Notes", some "chapters/03-extra-topic/notes.md"⟩] : List Entry) =
        ⟨0, pyTitle (replaceDash "03-extra-topic"), none⟩ :: tl ∧ tl ≠ [] ∧
      (∀ e ∈ tl, e.depth = 1 ∧ ∃ n c,
        ((["chapters", "03-extra-topic", n] : RelPath), c) ∈ noReadmeFs.files ∧
        isMdName n = true ∧
        is_excluded (pathStr "/book" ["chapters", "03-extra-topic", n]) defaultExclude =
          .ok false ∧
        e = ⟨1, extract_title n (some c), some ("chapters/" ++ "03-extra-topic" ++ "/" ++ n)⟩) ∧
      (∀ n c, ((["chapters", "03-extra-topic", n] : RelPath), c) ∈ noReadmeFs.files →
        isMdName n = true →
        is_excluded (pathStr "/book" ["chapters", "03-extra-topic", n]) defaultExclude =
          .ok false →
        ∃ e ∈ tl, e.target = some ("chapters/" ++ "03-extra-topic" ++ "/" ++ n)) ∧
      tl.Pairwise (fun a b => ∀ s t, a.target = some s → b.target = some t →
        strLe s t = true)) :=
  c8_no_readme_chapter noReadmeFs "/book" defaultExclude "03-extra-topic"
    (⟨0, "03 Extra Topic", none⟩ :: [⟨1, "My Notes", some "chapters/03-extra-topic/notes.md"⟩])
    rfl rfl rfl
